import Mathlib

/-!
Verification of the temporal derivation and aggregation core of the
`nse-am` pipeline: trading calendar, expiry-chain resolution, window
boundaries, per-day gold builder and per-expiry summary builder.

The Lean definitions below are a shallow embedding of the Python sources
`src/nseva/services/calendar.py`, `src/nseva/services/expiry_service.py`,
`src/nseva/gold/futures_day.py` and `src/nseva/gold/futures_summary.py`.
The on-disk partition layout is embedded as an explicit `Store` value;
file reads become association-list lookups and file writes become
association-list updates.  Numeric record values (prices, counts, shares)
are embedded as exact integers; every claim under audit concerns only
integer-valued fields (contracts, lot sizes, share limits), and Python's
`floor` of a true division is embedded as the exact rational floor
`Int.fdiv`.  Log warnings emitted by `windows_for` are part of the
returned `WindowsResult` value so that properties about them can be
stated.
-/

namespace Nseva

instance {ε α : Type} [DecidableEq ε] [DecidableEq α] : DecidableEq (Except ε α) := fun a b =>
  match a, b with
  | .ok x, .ok y =>
      if h : x = y then .isTrue (by rw [h])
      else .isFalse (by intro hc; cases hc; exact h rfl)
  | .error x, .error y =>
      if h : x = y then .isTrue (by rw [h])
      else .isFalse (by intro hc; cases hc; exact h rfl)
  | .ok _, .error _ => .isFalse (by intro hc; cases hc)
  | .error _, .ok _ => .isFalse (by intro hc; cases hc)

/-- Calendar date, mirroring Python `datetime.date` (year, month, day).
Fields are unbounded integers; the order is lexicographic, which agrees
with Python date ordering on valid dates. -/
structure Date where
  y : Int
  m : Int
  d : Int
deriving DecidableEq, Repr

/-- Lexicographic key of a date. -/
def Date.key (a : Date) : Lex (Int × Lex (Int × Int)) := toLex (a.y, toLex (a.m, a.d))

theorem Date.key_injective : Function.Injective Date.key := by
  intro a b h
  cases a; cases b
  simp only [Date.key, toLex, Equiv.refl_apply, Prod.mk.injEq] at h
  simp_all

instance : LinearOrder Date := LinearOrder.lift' Date.key Date.key_injective

theorem Date.lt_iff {a b : Date} :
    a < b ↔ a.y < b.y ∨ (a.y = b.y ∧ (a.m < b.m ∨ (a.m = b.m ∧ a.d < b.d))) := by
  show a.key < b.key ↔ _
  simp only [Date.key]
  rw [Prod.Lex.lt_iff]
  simp [Prod.Lex.lt_iff]

theorem Date.le_iff {a b : Date} :
    a ≤ b ↔ a.y < b.y ∨ (a.y = b.y ∧ (a.m < b.m ∨ (a.m = b.m ∧ a.d ≤ b.d))) := by
  show a.key ≤ b.key ↔ _
  simp only [Date.key]
  rw [Prod.Lex.le_iff]
  simp [Prod.Lex.lt_iff, Prod.Lex.le_iff]

/-- Gregorian leap-year test (as in Python's `calendar`/`datetime`). -/
def isLeap (y : Int) : Bool := y % 4 == 0 && (y % 100 != 0 || y % 400 == 0)

/-- Number of days in a month of a given year. -/
def daysInMonth (y m : Int) : Int :=
  if m = 2 then (if isLeap y then 29 else 28)
  else if m = 4 ∨ m = 6 ∨ m = 9 ∨ m = 11 then 30
  else 31

/-- Successor date: Python `date + timedelta(days=1)` on valid dates. -/
def Date.nextDay (dt : Date) : Date :=
  if dt.d < daysInMonth dt.y dt.m then ⟨dt.y, dt.m, dt.d + 1⟩
  else if dt.m < 12 then ⟨dt.y, dt.m + 1, 1⟩
  else ⟨dt.y + 1, 1, 1⟩

/-- Date minus `k` calendar months with end-of-month clamping, mirroring
`dateutil.relativedelta`: `expiry - relativedelta(months=k)` shifts the
month back by `k` and clamps the day to the length of the target month. -/
def Date.subMonths (dt : Date) (k : Int) : Date :=
  let total := dt.y * 12 + (dt.m - 1) - k
  let y2 := Int.fdiv total 12
  let m2 := Int.fmod total 12 + 1
  ⟨y2, m2, min dt.d (daysInMonth y2 m2)⟩

/-- Row of a silver `fo_bhavcopy_day` partition (`SilverDayRecord`).
Nullable numeric columns are `Option Int`. -/
structure FoRow where
  trade_date : Date
  symbol : String
  expiry_date : Date
  «open» : Option Int
  high : Option Int
  low : Option Int
  close : Option Int
  settle_price : Option Int
  contracts : Option Int
  value_lakhs : Option Int
  open_interest_contracts : Option Int
  lot_size_shares : Option Int
  change_in_oi_contracts : Option Int
deriving DecidableEq, Repr

/-- Row of a silver `mwpl_combined_day` partition (`PositionLimitRecord`). -/
structure MwplRow where
  trade_date : Date
  symbol : String
  mwpl_shares : Option Int
  combined_oi_shares : Option Int
deriving DecidableEq, Repr

/-- Row of a gold `futures_day` artifact (`GoldDayRecord`), in the column
order selected by `_compute_gold`. -/
structure GoldRow where
  trade_date : Date
  symbol : String
  expiry_date : Date
  «open» : Option Int
  high : Option Int
  low : Option Int
  close : Option Int
  settle_price : Option Int
  contracts : Option Int
  value_lakhs : Option Int
  oi_contracts : Option Int
  lot_size_shares : Option Int
  oi_shares : Option Int
  mwpl_shares : Option Int
  combined_oi_shares : Option Int
deriving DecidableEq, Repr

/-- Row of a gold `futures_month_summary` artifact (`GoldSummaryRecord`).
Fields that `build_futures_summary` sets to `pd.NA` / `pd.NaT` are `none`. -/
structure SummaryRow where
  symbol : String
  expiry_date : Date
  primary_start_date : Date
  overlap_start_date : Date
  end_date : Date
  summary_scope : String
  max_permitted_contracts : Option Int
  threshold_90pct : Option Int
  max_oi_contracts : Int
  mwpl_shares_used : Option Int
  lot_size_used : Option Int
  as_of_trade_date : Option Date
deriving DecidableEq, Repr

/-- On-disk state visible to the core.  Silver partition directories are
keyed by date; the inner `Option` is the presence of `data.parquet` in the
directory (a partition directory only ever holds that one file).  Gold
day artifacts are keyed by `(date, symbol)` and summaries by
`(symbol, expiry)`.  `rawUdiff` lists dates whose raw UDiFF zip exists. -/
structure Store where
  silverFo : List (Date × Option (List FoRow))
  silverMwpl : List (Date × Option (List MwplRow))
  goldDay : List ((Date × String) × List GoldRow)
  summary : List ((String × Date) × SummaryRow)
  rawUdiff : List Date
deriving DecidableEq

/-- First-match association lookup (a filesystem has unique paths). -/
def lookupAssoc {κ α : Type} [DecidableEq κ] : List (κ × α) → κ → Option α
  | [], _ => none
  | e :: t, k => if e.1 = k then some e.2 else lookupAssoc t k

/-- Contents of `date=<d>/data.parquet` when both the partition directory
and the parquet file exist. -/
def lookupParquet {α : Type} (l : List (Date × Option (List α))) (dt : Date) :
    Option (List α) :=
  match lookupAssoc l dt with
  | some (some rows) => some rows
  | _ => none

/-- Overwrite-or-create at a key: replaces the first entry with that key,
appends when absent (mirrors writing a file at a fixed path). -/
def updateAssoc {κ α : Type} [DecidableEq κ] : List (κ × α) → κ → α → List (κ × α)
  | [], k, v => [(k, v)]
  | e :: t, k, v => if e.1 = k then (k, v) :: t else e :: updateAssoc t k v

/-- Embedding of `is_trading_day` (`services/calendar.py`): true iff the
raw UDiFF zip for the date exists, or the silver `fo_bhavcopy_day`
partition directory for the date exists and is non-empty (in this model a
partition directory is non-empty exactly when its `data.parquet` exists). -/
def isTradingDay (s : Store) (dt : Date) : Bool :=
  s.rawUdiff.any (fun x => decide (x = dt)) ||
    s.silverFo.any (fun e => decide (e.1 = dt) && e.2.isSome)

/-- Failure modes of the core, named after the spec's error taxonomy.
`missingSilverPartition` is the `FileNotFoundError` raise site in
`build_futures_day`, `expiryNotObserved` the `ValueError` in
`windows_for`, `calendarExhausted` the `ValueError` in
`next_trading_day_after`, and `intCastOfNA` the `ValueError` that
`int(nan)` raises in `build_futures_summary` when every loaded
`oi_contracts` is null. -/
inductive Err where
  | missingSilverPartition : Err
  | expiryNotObserved : Err
  | calendarExhausted : Err
  | intCastOfNA : Err
deriving DecidableEq, Repr

/-- Fuel-indexed forward scan of `next_trading_day_after`: step to the
next day, return it if it is a trading day, else recurse. -/
def searchTD (s : Store) : Nat → Date → Option Date
  | 0, _ => none
  | n + 1, cur =>
    let c := cur.nextDay
    if isTradingDay s c then some c else searchTD s n c

/-- Embedding of `next_trading_day_after` (`services/calendar.py`): scan
up to 366 successor days, raising when none is a trading day. -/
def nextTradingDayAfter (s : Store) (dt : Date) : Except Err Date :=
  match searchTD s 366 dt with
  | some t => .ok t
  | none => .error .calendarExhausted

/-- All expiry dates observed for `symbol` across silver partitions that
actually have a `data.parquet` (partitions without it are skipped by
`derive_expiries`). -/
def observedExpiryList (s : Store) (symbol : String) : List Date :=
  s.silverFo.flatMap (fun e =>
    match e.2 with
    | some rows =>
        (rows.filter (fun r => decide (r.symbol = symbol))).map (fun r => r.expiry_date)
    | none => [])

/-- Embedding of `derive_expiries` (`services/expiry_service.py`):
`tuple(sorted(set(...)))` becomes deduplicating the observed expiry
dates and sorting them ascending. -/
def deriveExpiries (s : Store) (symbol : String) : List Date :=
  (observedExpiryList s symbol).dedup.insertionSort (· ≤ ·)

/-- Result of `windows_for` together with its log side effects:
`fallbackLog` records each `fallback(idx_offset, months_back)` warning as
`(idx_offset, fallback_expiry)`, and `overlapWarn` is true iff the
"Overlap start not before primary start" warning was logged. -/
structure WindowsResult where
  w1Start : Date
  w3Start : Date
  e0 : Date
  fallbackLog : List (Int × Date)
  overlapWarn : Bool
deriving DecidableEq, Repr

/-- Embedding of `windows_for` (`services/expiry_service.py`).  The
anchor at `idx - k` is taken from the chain when `idx - k ≥ 0` and
otherwise synthesized as `expiry - relativedelta(months=k)` with a logged
fallback warning; the overlap warning is logged exactly when
`w3_start > w1_start` is false. -/
def windowsFor (s : Store) (symbol : String) (expiry : Date) :
    Except Err WindowsResult :=
  let expiries := deriveExpiries s symbol
  if expiry ∈ expiries then
    let idx := expiries.indexOf expiry
    let p1 : Date × List (Int × Date) :=
      if 1 ≤ idx then (((expiries.get? (idx - 1)).getD expiry), [])
      else (expiry.subMonths 1, [(1, expiry.subMonths 1)])
    let p3 : Date × List (Int × Date) :=
      if 3 ≤ idx then (((expiries.get? (idx - 3)).getD expiry), [])
      else (expiry.subMonths 3, [(3, expiry.subMonths 3)])
    do
      let w1 ← nextTradingDayAfter s p1.1
      let w3 ← nextTradingDayAfter s p3.1
      return ⟨w1, w3, expiry, p1.2 ++ p3.2, decide (¬ w3 > w1)⟩
  else
    .error .expiryNotObserved

/-- One output row of the left merge in `_compute_gold`, given the
matched position-limit fields. -/
def goldOf (r : FoRow) (mwpl combined : Option Int) : GoldRow :=
  { trade_date := r.trade_date
    symbol := r.symbol
    expiry_date := r.expiry_date
    «open» := r.«open»
    high := r.high
    low := r.low
    close := r.close
    settle_price := r.settle_price
    contracts := r.contracts
    value_lakhs := r.value_lakhs
    oi_contracts := r.open_interest_contracts
    lot_size_shares := r.lot_size_shares
    oi_shares :=
      match r.open_interest_contracts, r.lot_size_shares with
      | some a, some b => some (a * b)
      | _, _ => none
    mwpl_shares := mwpl
    combined_oi_shares := combined }

/-- Left-merge of one FUTSTK row against the MWPL frame on
`(trade_date, symbol)`: one output row per match, or a single row with
null MWPL fields when there is no match (pandas `how="left"`). -/
def mergeMatches (ms : List MwplRow) (r : FoRow) : List GoldRow :=
  let hits := ms.filter (fun m => decide (m.trade_date = r.trade_date ∧ m.symbol = r.symbol))
  if hits.isEmpty then [goldOf r none none]
  else hits.map (fun m => goldOf r m.mwpl_shares m.combined_oi_shares)

/-- Embedding of `_compute_gold` (`gold/futures_day.py`). -/
def computeGold (fo : List FoRow) (ms : List MwplRow) : List GoldRow :=
  fo.flatMap (mergeMatches ms)

/-- Embedding of `build_futures_day` (`gold/futures_day.py`); returns the
produced rows and the store after the (possibly skipped) persist step. -/
def buildFuturesDay (s : Store) (symbol : String) (tradeDate : Date) :
    Except Err (List GoldRow × Store) :=
  match lookupParquet s.silverFo tradeDate with
  | none => .error .missingSilverPartition
  | some rows =>
    let foRows := rows.filter (fun r => decide (r.symbol = symbol))
    if foRows.isEmpty then .ok ([], s)
    else
      let mwplRows :=
        match lookupParquet s.silverMwpl tradeDate with
        | some ms => ms.filter (fun m => decide (m.symbol = symbol))
        | none => []
      let gold := computeGold foRows mwplRows
      .ok (gold, { s with goldDay := updateAssoc s.goldDay (tradeDate, symbol) gold })

/-- Embedding of `_load_gold_days` (`gold/futures_summary.py`): rows of
every gold `futures_day` partition for `symbol` whose partition date lies
in `[startDate, endDate]` (the code `continue`s when
`trade_date < start_date or trade_date > end_date`). -/
def loadGoldDays (s : Store) (symbol : String) (startDate endDate : Date) :
    List GoldRow :=
  (s.goldDay.filter (fun e =>
      decide (startDate ≤ e.1.1 ∧ e.1.1 ≤ endDate ∧ e.1.2 = symbol))).flatMap (fun e => e.2)

/-- Row selected by `.sort_values("trade_date").tail(1)`: a candidate
with the maximal trade date (on equal dates the later-loaded row wins). -/
def selectLatest : List (Date × Int × Int) → Option (Date × Int × Int)
  | [] => none
  | c :: t =>
    match selectLatest t with
    | none => some c
    | some b => if c.1 > b.1 then some c else some b

/-- Embedding of `build_futures_summary` (`gold/futures_summary.py`).
`summaryScope` is the configured `futures.windows.primary.summary_scope`
value (default `"W1"`).  The candidate list is
`gold_df.dropna(subset=["mwpl_shares", "lot_size_shares"])` projected to
`(trade_date, mwpl_shares, lot_size_shares)`; `floor(mwpl/lot)` and
`floor(0.9 * max_permitted)` are the exact rational floors. -/
def buildFuturesSummary (summaryScope : String) (s : Store) (symbol : String)
    (expiry : Date) : Except Err (List SummaryRow × Store) := do
  let w ← windowsFor s symbol expiry
  let scopeStart := if summaryScope = "W1" then w.w1Start else w.w3Start
  let goldDf := loadGoldDays s symbol scopeStart w.e0
  if goldDf.isEmpty then
    return ([], s)
  else
    let maxOi ← match (goldDf.filterMap (fun r => r.oi_contracts)).max? with
      | some v => Except.ok v
      | none => Except.error Err.intCastOfNA
    let cands := goldDf.filterMap (fun r =>
      match r.mwpl_shares, r.lot_size_shares with
      | some mv, some lv => some (r.trade_date, mv, lv)
      | _, _ => none)
    let row : SummaryRow :=
      match selectLatest cands with
      | none =>
        { symbol := symbol, expiry_date := expiry, primary_start_date := w.w1Start,
          overlap_start_date := w.w3Start, end_date := w.e0,
          summary_scope := summaryScope, max_permitted_contracts := none,
          threshold_90pct := none, max_oi_contracts := maxOi,
          mwpl_shares_used := none, lot_size_used := none, as_of_trade_date := none }
      | some c =>
        let maxPermitted : Option Int :=
          if c.2.2 ≠ 0 then some (Int.fdiv c.2.1 c.2.2) else none
        { symbol := symbol, expiry_date := expiry, primary_start_date := w.w1Start,
          overlap_start_date := w.w3Start, end_date := w.e0,
          summary_scope := summaryScope, max_permitted_contracts := maxPermitted,
          threshold_90pct := maxPermitted.map (fun v => Int.fdiv (9 * v) 10),
          max_oi_contracts := maxOi, mwpl_shares_used := some c.2.1,
          lot_size_used := some c.2.2, as_of_trade_date := some c.1 }
    return ([row], { s with summary := updateAssoc s.summary (symbol, expiry) row })


/-- Silver FUTSTK row fixture with fixed price payload, as in the unit
tests of the repository. -/
def foRow (td : Date) (sym : String) (ed : Date) (oi lot : Option Int) : FoRow :=
  { trade_date := td, symbol := sym, expiry_date := ed, «open» := some 1,
    high := some 2, low := some 1, close := some 1, settle_price := some 1,
    contracts := some 10, value_lakhs := some 1, open_interest_contracts := oi,
    lot_size_shares := lot, change_in_oi_contracts := some 1 }

/-- Store fixture mirroring the repository's calendar/expiry unit test:
four silver partitions for symbol `ABC`, expiries 2024-01-25, 2024-02-22,
2024-03-28 and 2024-04-25, each observed on the following trading day. -/
def S0 : Store :=
  { silverFo :=
      [ (⟨2024, 1, 26⟩, some [foRow ⟨2024, 1, 26⟩ "ABC" ⟨2024, 1, 25⟩ (some 100) (some 15)]),
        (⟨2024, 2, 23⟩, some [foRow ⟨2024, 2, 23⟩ "ABC" ⟨2024, 2, 22⟩ (some 100) (some 15)]),
        (⟨2024, 3, 29⟩, some [foRow ⟨2024, 3, 29⟩ "ABC" ⟨2024, 3, 28⟩ (some 100) (some 15)]),
        (⟨2024, 4, 5⟩, some [foRow ⟨2024, 4, 5⟩ "ABC" ⟨2024, 4, 25⟩ (some 100) (some 15)]) ],
    silverMwpl := [], goldDay := [], summary := [], rawUdiff := [] }

example : deriveExpiries S0 "ABC" =
    [⟨2024, 1, 25⟩, ⟨2024, 2, 22⟩, ⟨2024, 3, 28⟩, ⟨2024, 4, 25⟩] := by decide

example : windowsFor S0 "ABC" ⟨2024, 4, 25⟩ =
    .ok ⟨⟨2024, 3, 29⟩, ⟨2024, 1, 26⟩, ⟨2024, 4, 25⟩, [], true⟩ := by decide

example : windowsFor S0 "ABC" ⟨2024, 1, 25⟩ =
    .ok ⟨⟨2024, 1, 26⟩, ⟨2024, 1, 26⟩, ⟨2024, 1, 25⟩,
      [(1, ⟨2023, 12, 25⟩), (3, ⟨2023, 10, 25⟩)], true⟩ := by decide


/-- Empty store: nothing ingested. -/
def SEmpty : Store := ⟨[], [], [], [], []⟩

/-- Gold rows produced for `ABC` on 2024-04-05 from `S0` (no MWPL data,
so the left join leaves the position-limit fields null). -/
def G45 : List GoldRow :=
  [goldOf (foRow ⟨2024, 4, 5⟩ "ABC" ⟨2024, 4, 25⟩ (some 100) (some 15)) none none]

/-- Store `S0` after `build_futures_day("ABC", 2024-04-05)` persisted its
gold artifact. -/
def S0day : Store := { S0 with goldDay := [((⟨2024, 4, 5⟩, "ABC"), G45)] }

/-- Gold `futures_day` row fixture for the summary-window stores. -/
def gRowFix (td : Date) (oi lot mwpl : Option Int) : GoldRow :=
  goldOf (foRow td "ABC" ⟨2024, 4, 25⟩ oi lot) mwpl (some 0)

/-- Store with the spec's position-limit scenario: gold records at
2024-04-02 (mwpl 1000, lot 10, oi 180) and 2024-04-04 (mwpl 1200, lot 10,
oi 220) inside the window of expiry 2024-04-25. -/
def SPos : Store :=
  { S0 with goldDay :=
      [ ((⟨2024, 4, 2⟩, "ABC"), [gRowFix ⟨2024, 4, 2⟩ (some 180) (some 10) (some 1000)]),
        ((⟨2024, 4, 4⟩, "ABC"), [gRowFix ⟨2024, 4, 4⟩ (some 220) (some 10) (some 1200)]) ] }

/-- Summary row `build_futures_summary` produces on `SPos` for expiry
2024-04-25 under scope `W1`. -/
def SRowPos : SummaryRow :=
  { symbol := "ABC", expiry_date := ⟨2024, 4, 25⟩,
    primary_start_date := ⟨2024, 3, 29⟩, overlap_start_date := ⟨2024, 1, 26⟩,
    end_date := ⟨2024, 4, 25⟩, summary_scope := "W1",
    max_permitted_contracts := some 120, threshold_90pct := some 108,
    max_oi_contracts := 220, mwpl_shares_used := some 1200,
    lot_size_used := some 10, as_of_trade_date := some ⟨2024, 4, 4⟩ }

/-- Store `SPos` after its summary has been persisted. -/
def SPos1 : Store := { SPos with summary := [(("ABC", ⟨2024, 4, 25⟩), SRowPos)] }

/-- Store whose single in-window gold record carries a negative lot size
(`lot_size_shares = -10`) together with a position limit. -/
def SNeg : Store :=
  { S0 with goldDay :=
      [ ((⟨2024, 4, 4⟩, "ABC"), [gRowFix ⟨2024, 4, 4⟩ (some 220) (some (-10)) (some 100)]) ] }

/-- Summary row `build_futures_summary` produces on `SNeg`: the lot size
is negative, yet `max_permitted_contracts` is populated (the code only
checks `lot_used` for truthiness, not positivity). -/
def SRowNeg : SummaryRow :=
  { symbol := "ABC", expiry_date := ⟨2024, 4, 25⟩,
    primary_start_date := ⟨2024, 3, 29⟩, overlap_start_date := ⟨2024, 1, 26⟩,
    end_date := ⟨2024, 4, 25⟩, summary_scope := "W1",
    max_permitted_contracts := some (-10), threshold_90pct := some (-9),
    max_oi_contracts := 220, mwpl_shares_used := some 100,
    lot_size_used := some (-10), as_of_trade_date := some ⟨2024, 4, 4⟩ }

/-- Store `SNeg` after its summary has been persisted. -/
def SNeg1 : Store := { SNeg with summary := [(("ABC", ⟨2024, 4, 25⟩), SRowNeg)] }

/-- Boundaries `windows_for` returns on `S0` for the last expiry
2024-04-25: the chain is well-ordered (`w3Start < w1Start`), the fallback
log is empty, and the overlap warning fired. -/
def W425 : WindowsResult :=
  ⟨⟨2024, 3, 29⟩, ⟨2024, 1, 26⟩, ⟨2024, 4, 25⟩, [], true⟩

/-- Boundaries `windows_for` returns on `S0` for the first expiry
2024-01-25: both anchors are synthesized fallbacks. -/
def W125 : WindowsResult :=
  ⟨⟨2024, 1, 26⟩, ⟨2024, 1, 26⟩, ⟨2024, 1, 25⟩,
    [(1, ⟨2023, 12, 25⟩), (3, ⟨2023, 10, 25⟩)], true⟩

example : buildFuturesDay S0 "ABC" ⟨2024, 4, 5⟩ = .ok (G45, S0day) := by decide

example : buildFuturesSummary "W1" SPos "ABC" ⟨2024, 4, 25⟩ = .ok ([SRowPos], SPos1) := by decide

example : buildFuturesSummary "W1" SNeg "ABC" ⟨2024, 4, 25⟩ = .ok ([SRowNeg], SNeg1) := by decide

/-! Helper lemmas about the date model. -/

theorem Date.lt_nextDay (dt : Date) : dt < dt.nextDay := by
  unfold Date.nextDay
  split_ifs <;> (rw [Date.lt_iff]; simp) <;> omega

theorem Date.lt_iterate_nextDay (dt : Date) (k : Nat) (hk : 1 ≤ k) :
    dt < Date.nextDay^[k] dt := by
  induction k with
  | zero => omega
  | succ n ih =>
    rcases Nat.eq_or_lt_of_le hk with h1 | h1
    · rw [← h1]
      simpa using Date.lt_nextDay dt
    · have hn : 1 ≤ n := by omega
      calc dt < Date.nextDay^[n] dt := ih hn
        _ < Date.nextDay^[n + 1] dt := by
            rw [Function.iterate_succ_apply']
            exact Date.lt_nextDay _

/-! Read-footprint (frame) lemmas: each operation reads only some fields
of the store, so updating other fields does not change its result. -/

theorem isTradingDay_congr {s s' : Store} (hFo : s'.silverFo = s.silverFo)
    (hRaw : s'.rawUdiff = s.rawUdiff) (dt : Date) :
    isTradingDay s' dt = isTradingDay s dt := by
  unfold isTradingDay
  rw [hFo, hRaw]

theorem searchTD_congr {s s' : Store} (hFo : s'.silverFo = s.silverFo)
    (hRaw : s'.rawUdiff = s.rawUdiff) (n : Nat) (cur : Date) :
    searchTD s' n cur = searchTD s n cur := by
  induction n generalizing cur with
  | zero => rfl
  | succ n ih =>
    simp only [searchTD, isTradingDay_congr hFo hRaw]
    split <;> simp [ih]

theorem nextTradingDayAfter_congr {s s' : Store} (hFo : s'.silverFo = s.silverFo)
    (hRaw : s'.rawUdiff = s.rawUdiff) (dt : Date) :
    nextTradingDayAfter s' dt = nextTradingDayAfter s dt := by
  unfold nextTradingDayAfter
  rw [searchTD_congr hFo hRaw]

theorem deriveExpiries_congr {s s' : Store} (hFo : s'.silverFo = s.silverFo)
    (symbol : String) : deriveExpiries s' symbol = deriveExpiries s symbol := by
  unfold deriveExpiries observedExpiryList
  rw [hFo]

theorem windowsFor_congr {s s' : Store} (hFo : s'.silverFo = s.silverFo)
    (hRaw : s'.rawUdiff = s.rawUdiff) (symbol : String) (expiry : Date) :
    windowsFor s' symbol expiry = windowsFor s symbol expiry := by
  unfold windowsFor
  simp only [deriveExpiries_congr hFo, nextTradingDayAfter_congr hFo hRaw]

theorem loadGoldDays_congr {s s' : Store} (hGold : s'.goldDay = s.goldDay)
    (symbol : String) (a b : Date) :
    loadGoldDays s' symbol a b = loadGoldDays s symbol a b := by
  unfold loadGoldDays
  rw [hGold]

/-! Lemmas about association-list updates. -/

theorem updateAssoc_idem {κ α : Type} [DecidableEq κ] (l : List (κ × α)) (k : κ) (v : α) :
    updateAssoc (updateAssoc l k v) k v = updateAssoc l k v := by
  induction l with
  | nil => simp [updateAssoc]
  | cons e t ih =>
    by_cases h : e.1 = k
    · simp [updateAssoc, h]
    · simp [updateAssoc, h, ih]

/-! Lemmas about `selectLatest`. -/

theorem selectLatest_eq_none_iff (l : List (Date × Int × Int)) :
    selectLatest l = none ↔ l = [] := by
  cases l with
  | nil => simp [selectLatest]
  | cons c t =>
    simp only [selectLatest]
    cases selectLatest t <;> simp <;> split <;> simp

theorem selectLatest_mem_max (l : List (Date × Int × Int)) (c : Date × Int × Int)
    (h : selectLatest l = some c) : c ∈ l ∧ ∀ x ∈ l, x.1 ≤ c.1 := by
  induction l generalizing c with
  | nil => simp [selectLatest] at h
  | cons a t ih =>
    simp only [selectLatest] at h
    cases ht : selectLatest t with
    | none =>
      rw [ht] at h
      have : t = [] := (selectLatest_eq_none_iff t).mp ht
      subst this
      simp at h
      subst h
      simp
    | some b =>
      rw [ht] at h
      obtain ⟨hbmem, hbmax⟩ := ih b ht
      by_cases hab : a.1 > b.1
      · simp [hab] at h
        subst h
        refine ⟨by simp, ?_⟩
        intro x hx
        rcases List.mem_cons.mp hx with rfl | hx
        · exact le_refl _
        · exact le_trans (hbmax x hx) (le_of_lt hab)
      · simp [hab] at h
        subst h
        refine ⟨List.mem_cons_of_mem _ hbmem, ?_⟩
        intro x hx
        rcases List.mem_cons.mp hx with rfl | hx
        · exact not_lt.mp hab
        · exact hbmax x hx


/-! Characterization of the forward calendar scan. -/

theorem iterate_pred_nextDay (cur : Date) (j : Nat) (hj : 1 ≤ j) :
    Date.nextDay^[j] cur = Date.nextDay^[j - 1] cur.nextDay := by
  rw [← Function.iterate_succ_apply]
  congr 1
  omega

theorem searchTD_some_iff (s : Store) (n : Nat) (cur : Date) (t : Date) :
    searchTD s n cur = some t ↔
      ∃ k, 1 ≤ k ∧ k ≤ n ∧ t = Date.nextDay^[k] cur ∧ isTradingDay s t = true ∧
        ∀ j, 1 ≤ j → j < k → isTradingDay s (Date.nextDay^[j] cur) = false := by
  induction n generalizing cur with
  | zero =>
    simp only [searchTD]
    constructor
    · intro h; cases h
    · rintro ⟨k, hk1, hk0, _⟩; omega
  | succ n ih =>
    simp only [searchTD]
    by_cases hc : isTradingDay s cur.nextDay = true
    · simp only [hc, if_true, Option.some_inj]
      constructor
      · rintro rfl
        exact ⟨1, le_refl _, by omega, by simp, hc, by omega⟩
      · rintro ⟨k, hk1, hkn, rfl, htd, hmin⟩
        rcases Nat.eq_or_lt_of_le hk1 with h1 | h1
        · rw [← h1]; simp
        · exact absurd hc (by simpa using hmin 1 (le_refl _) h1)
    · simp only [hc, if_false, Bool.false_eq_true]
      rw [ih]
      constructor
      · rintro ⟨k, hk1, hkn, rfl, htd, hmin⟩
        refine ⟨k + 1, by omega, by omega, ?_, ?_, ?_⟩
        · rw [Function.iterate_succ_apply]
        · exact htd
        · intro j hj1 hjk
          rcases Nat.eq_or_lt_of_le hj1 with h1 | h1
          · rw [← h1]
            simpa using hc
          · rw [iterate_pred_nextDay cur j hj1]
            exact hmin (j - 1) (by omega) (by omega)
      · rintro ⟨k, hk1, hkn, rfl, htd, hmin⟩
        rcases Nat.eq_or_lt_of_le hk1 with h1 | h1
        · exfalso
          rw [← h1] at htd
          simp only [Function.iterate_one] at htd
          exact absurd htd (by simpa using hc)
        · refine ⟨k - 1, by omega, by omega, ?_, ?_, ?_⟩
          · exact iterate_pred_nextDay cur k hk1
          · exact htd
          · intro j hj1 hjk
            have := hmin (j + 1) (by omega) (by omega)
            rw [Function.iterate_succ_apply] at this
            exact this

theorem searchTD_none_iff (s : Store) (n : Nat) (cur : Date) :
    searchTD s n cur = none ↔
      ∀ k, 1 ≤ k → k ≤ n → isTradingDay s (Date.nextDay^[k] cur) = false := by
  induction n generalizing cur with
  | zero =>
    simp only [searchTD]
    constructor
    · intro _ k hk1 hk0; omega
    · intro _; trivial
  | succ n ih =>
    simp only [searchTD]
    by_cases hc : isTradingDay s cur.nextDay = true
    · simp only [hc, if_true]
      constructor
      · intro h; cases h
      · intro h
        exact absurd hc (by simpa using h 1 (le_refl _) (by omega))
    · simp only [hc, if_false, Bool.false_eq_true]
      rw [ih]
      constructor
      · intro h k hk1 hkn
        rcases Nat.eq_or_lt_of_le hk1 with h1 | h1
        · rw [← h1]
          simpa using hc
        · rw [iterate_pred_nextDay cur k hk1]
          exact h (k - 1) (by omega) (by omega)
      · intro h k hk1 hkn
        have := h (k + 1) (by omega) (by omega)
        rw [Function.iterate_succ_apply] at this
        exact this


/-! Lemmas about the derived expiry chain. -/

theorem deriveExpiries_nodup (s : Store) (symbol : String) :
    (deriveExpiries s symbol).Nodup :=
  ((List.perm_insertionSort (· ≤ ·) (observedExpiryList s symbol).dedup).nodup_iff).mpr
    (List.nodup_dedup _)

theorem deriveExpiries_sorted (s : Store) (symbol : String) :
    List.Sorted (· < ·) (deriveExpiries s symbol) :=
  (List.sorted_insertionSort (· ≤ ·) _).lt_of_le (deriveExpiries_nodup s symbol)

theorem deriveExpiries_mem (s : Store) (symbol : String) (e : Date) :
    e ∈ deriveExpiries s symbol ↔ e ∈ observedExpiryList s symbol := by
  unfold deriveExpiries
  rw [(List.perm_insertionSort (· ≤ ·) _).mem_iff, List.mem_dedup]

theorem mem_observedExpiryList (s : Store) (symbol : String) (e : Date) :
    e ∈ observedExpiryList s symbol ↔
      ∃ p ∈ s.silverFo, ∃ rows, p.2 = some rows ∧
        ∃ r ∈ rows, r.symbol = symbol ∧ r.expiry_date = e := by
  unfold observedExpiryList
  rw [List.mem_flatMap]
  constructor
  · rintro ⟨p, hp, hx⟩
    cases h2 : p.2 with
    | none => rw [h2] at hx; simp at hx
    | some rows =>
      rw [h2] at hx
      simp only [List.mem_map, List.mem_filter, decide_eq_true_eq] at hx
      obtain ⟨r, ⟨hr, hsym⟩, he⟩ := hx
      exact ⟨p, hp, rows, h2, r, hr, hsym, he⟩
  · rintro ⟨p, hp, rows, h2, r, hr, hsym, he⟩
    refine ⟨p, hp, ?_⟩
    rw [h2]
    simp only [List.mem_map, List.mem_filter, decide_eq_true_eq]
    exact ⟨r, ⟨hr, hsym⟩, he⟩

/-- Destructured form of a successful `windowsFor` run: membership of the
expiry in the chain, the anchor each window start was computed from, the
fallback log and the overlap-warning flag. -/
theorem windowsFor_ok_elim {s : Store} {symbol : String} {expiry : Date}
    {r : WindowsResult} (h : windowsFor s symbol expiry = .ok r) :
    expiry ∈ deriveExpiries s symbol ∧
    r.e0 = expiry ∧
    nextTradingDayAfter s
      (if 1 ≤ (deriveExpiries s symbol).indexOf expiry
       then ((deriveExpiries s symbol).get?
              ((deriveExpiries s symbol).indexOf expiry - 1)).getD expiry
       else expiry.subMonths 1) = .ok r.w1Start ∧
    nextTradingDayAfter s
      (if 3 ≤ (deriveExpiries s symbol).indexOf expiry
       then ((deriveExpiries s symbol).get?
              ((deriveExpiries s symbol).indexOf expiry - 3)).getD expiry
       else expiry.subMonths 3) = .ok r.w3Start ∧
    r.fallbackLog =
      ((if 1 ≤ (deriveExpiries s symbol).indexOf expiry then ([] : List (Int × Date))
        else [(1, expiry.subMonths 1)]) ++
       (if 3 ≤ (deriveExpiries s symbol).indexOf expiry then ([] : List (Int × Date))
        else [(3, expiry.subMonths 3)])) ∧
    r.overlapWarn = decide (¬ r.w3Start > r.w1Start) := by
  unfold windowsFor at h
  by_cases hmem : expiry ∈ deriveExpiries s symbol
  · simp only [hmem, if_true] at h
    refine ⟨hmem, ?_⟩
    cases hw1 : nextTradingDayAfter s
        (if 1 ≤ (deriveExpiries s symbol).indexOf expiry
         then ((deriveExpiries s symbol).get?
                ((deriveExpiries s symbol).indexOf expiry - 1)).getD expiry
         else expiry.subMonths 1) with
    | error e =>
      exfalso
      by_cases h1 : 1 ≤ (deriveExpiries s symbol).indexOf expiry <;>
        simp only [h1, if_true, if_false] at hw1 h <;>
        rw [hw1] at h <;> simp [Bind.bind, Except.bind] at h
    | ok w1 =>
      cases hw3 : nextTradingDayAfter s
          (if 3 ≤ (deriveExpiries s symbol).indexOf expiry
           then ((deriveExpiries s symbol).get?
                  ((deriveExpiries s symbol).indexOf expiry - 3)).getD expiry
           else expiry.subMonths 3) with
      | error e =>
        exfalso
        by_cases h1 : 1 ≤ (deriveExpiries s symbol).indexOf expiry <;>
          by_cases h3 : 3 ≤ (deriveExpiries s symbol).indexOf expiry <;>
          simp only [h1, h3, if_true, if_false] at hw1 hw3 h <;>
          rw [hw1, hw3] at h <;> simp [Bind.bind, Except.bind] at h
      | ok w3 =>
        by_cases h1 : 1 ≤ (deriveExpiries s symbol).indexOf expiry <;>
          by_cases h3 : 3 ≤ (deriveExpiries s symbol).indexOf expiry <;>
          simp only [h1, h3, if_true, if_false] at hw1 hw3 h ⊢ <;>
          rw [hw1, hw3] at h <;>
          simp only [Bind.bind, Except.bind, pure, Except.pure, Except.ok.injEq] at h <;>
          subst h <;> simp
  · simp only [hmem, if_false] at h
    cases h


/-! Lemmas about the gold merge. -/

theorem goldOf_oi_shares (r : FoRow) (mw cb : Option Int) (a b : Int)
    (ha : (goldOf r mw cb).oi_contracts = some a)
    (hb : (goldOf r mw cb).lot_size_shares = some b) :
    (goldOf r mw cb).oi_shares = some (a * b) := by
  simp only [goldOf] at ha hb ⊢
  rw [ha, hb]

theorem computeGold_mem (fo : List FoRow) (ms : List MwplRow) (row : GoldRow)
    (hrow : row ∈ computeGold fo ms) :
    ∃ r ∈ fo, ∃ mw cb, row = goldOf r mw cb := by
  unfold computeGold at hrow
  rw [List.mem_flatMap] at hrow
  obtain ⟨r, hr, hm⟩ := hrow
  simp only [mergeMatches] at hm
  split at hm
  · simp only [List.mem_singleton] at hm
    exact ⟨r, hr, none, none, hm⟩
  · simp only [List.mem_map] at hm
    obtain ⟨m, _, hm⟩ := hm
    exact ⟨r, hr, m.mwpl_shares, m.combined_oi_shares, hm.symm⟩

theorem mergeMatches_ne_nil (ms : List MwplRow) (r : FoRow) :
    mergeMatches ms r ≠ [] := by
  simp only [mergeMatches]
  split
  · simp
  · next hne =>
    simp only [ne_eq, List.map_eq_nil_iff]
    intro hnil
    rw [hnil] at hne
    simp at hne

theorem computeGold_ne_nil (fo : List FoRow) (ms : List MwplRow) (hfo : fo ≠ []) :
    computeGold fo ms ≠ [] := by
  cases fo with
  | nil => exact absurd rfl hfo
  | cons r t =>
    unfold computeGold
    rw [List.flatMap_cons]
    intro hnil
    have h1 : mergeMatches ms r = [] := by
      cases hd : mergeMatches ms r with
      | nil => rfl
      | cons x xs =>
        rw [hd] at hnil
        simp at hnil
    exact mergeMatches_ne_nil ms r h1

/-- C5: `build_futures_day` fails (with the missing-silver-partition
error, its only failure mode) if and only if the normalized base extract
for the date is absent; when the base extract exists but holds no row for
the instrument, it returns an empty, non-error result and leaves the
store untouched. -/
theorem C5_futures_day_missing_partition (s : Store) (symbol : String) (td : Date) :
    (buildFuturesDay s symbol td = .error Err.missingSilverPartition ↔
      lookupParquet s.silverFo td = none) ∧
    (∀ e, buildFuturesDay s symbol td = .error e → e = Err.missingSilverPartition) ∧
    (∀ rows, lookupParquet s.silverFo td = some rows →
      (∀ r ∈ rows, r.symbol ≠ symbol) →
      buildFuturesDay s symbol td = .ok ([], s)) := by
  refine ⟨?_, ?_, ?_⟩
  · cases hlk : lookupParquet s.silverFo td with
    | none => simp [buildFuturesDay, hlk]
    | some rows =>
      simp only [buildFuturesDay, hlk]
      constructor
      · intro h
        split at h <;> cases h
      · intro h
        cases h
  · intro e he
    cases hlk : lookupParquet s.silverFo td with
    | none =>
      simp only [buildFuturesDay, hlk] at he
      cases he
      rfl
    | some rows =>
      simp only [buildFuturesDay, hlk] at he
      split at he <;> cases he
  · intro rows hlk hnone
    have hfilter : rows.filter (fun r => decide (r.symbol = symbol)) = [] := by
      rw [List.filter_eq_nil_iff]
      intro r hr
      simpa using hnone r hr
    simp [buildFuturesDay, hlk, hfilter]

/-- Witness for C5 on the fixture store: a date with no base partition at
all raises the missing-partition error, and a date whose partition holds
no `ZZZ` row yields the empty non-error result. -/
theorem C5_futures_day_missing_partition_witness :
    buildFuturesDay S0 "ABC" ⟨2024, 7, 1⟩ = .error Err.missingSilverPartition ∧
    buildFuturesDay S0 "ZZZ" ⟨2024, 4, 5⟩ = .ok ([], S0) := by
  constructor
  · exact (C5_futures_day_missing_partition S0 "ABC" ⟨2024, 7, 1⟩).1.mpr (by decide)
  · exact (C5_futures_day_missing_partition S0 "ZZZ" ⟨2024, 4, 5⟩).2.2
      [foRow ⟨2024, 4, 5⟩ "ABC" ⟨2024, 4, 25⟩ (some 100) (some 15)] (by decide) (by decide)

/-- C6: every `GoldDayRecord` produced by `build_futures_day` whose
`oi_contracts` and `lot_size_shares` are both non-null satisfies
`oi_shares = oi_contracts * lot_size_shares`. -/
theorem C6_oi_shares_product (s : Store) (symbol : String) (td : Date)
    (out : List GoldRow) (s2 : Store)
    (h : buildFuturesDay s symbol td = .ok (out, s2))
    (row : GoldRow) (hrow : row ∈ out) (a b : Int)
    (ha : row.oi_contracts = some a) (hb : row.lot_size_shares = some b) :
    row.oi_shares = some (a * b) := by
  simp only [buildFuturesDay] at h
  split at h
  · cases h
  · next rows heq =>
    split at h
    · simp only [Except.ok.injEq, Prod.mk.injEq] at h
      rw [← h.1] at hrow
      cases hrow
    · simp only [Except.ok.injEq, Prod.mk.injEq] at h
      rw [← h.1] at hrow
      obtain ⟨r, _, mw, cb, rfl⟩ := computeGold_mem _ _ _ hrow
      exact goldOf_oi_shares r mw cb a b ha hb

/-- Witness for C6: the concrete gold record built from `S0` on
2024-04-05 has `oi_shares = 100 * 15 = 1500`. -/
theorem C6_oi_shares_product_witness :
    (goldOf (foRow ⟨2024, 4, 5⟩ "ABC" ⟨2024, 4, 25⟩ (some 100) (some 15)) none none).oi_shares =
      some 1500 := by
  have := C6_oi_shares_product S0 "ABC" ⟨2024, 4, 5⟩ G45 S0day (by decide)
    (goldOf (foRow ⟨2024, 4, 5⟩ "ABC" ⟨2024, 4, 25⟩ (some 100) (some 15)) none none)
    (by decide) 100 15 (by decide) (by decide)
  simpa using this


/-- C10: when the produced result is empty neither builder persists
anything.  An empty-result run of either builder leaves the store
exactly as it was, and the empty result is what both builders return in
their trigger situations — an in-window gold set that is empty for the
summary builder, and a base partition with no rows for the instrument
for the day builder. -/
theorem C10_empty_result_skips_persist (scope : String) (s : Store) (symbol : String)
    (expiry td : Date) :
    (∀ s2, buildFuturesDay s symbol td = .ok ([], s2) → s2 = s) ∧
    (∀ s2, buildFuturesSummary scope s symbol expiry = .ok ([], s2) → s2 = s) ∧
    (∀ w, windowsFor s symbol expiry = .ok w →
      loadGoldDays s symbol (if scope = "W1" then w.w1Start else w.w3Start) w.e0 = [] →
      buildFuturesSummary scope s symbol expiry = .ok ([], s)) ∧
    (∀ rows, lookupParquet s.silverFo td = some rows →
      (∀ r ∈ rows, r.symbol ≠ symbol) → buildFuturesDay s symbol td = .ok ([], s)) := by
  refine ⟨?_, ?_, ?_, ?_⟩
  · intro s2 h
    simp only [buildFuturesDay] at h
    split at h
    · cases h
    · split at h
      · simp only [Except.ok.injEq, Prod.mk.injEq] at h
        exact h.2.symm
      · next hne =>
        simp only [Except.ok.injEq, Prod.mk.injEq] at h
        exfalso
        refine computeGold_ne_nil _ _ ?_ h.1
        intro hnil
        rw [hnil] at hne
        simp at hne
  · intro s2 h
    simp only [buildFuturesSummary] at h
    cases hw : windowsFor s symbol expiry with
    | error e =>
      rw [hw] at h
      simp [Bind.bind, Except.bind] at h
    | ok w =>
      rw [hw] at h
      simp only [Bind.bind, Except.bind] at h
      set start := if scope = "W1" then w.w1Start else w.w3Start with hstart
      split at h
      · simp only [pure, Except.pure, Except.ok.injEq, Prod.mk.injEq] at h
        exact h.2.symm
      · cases hmx : ((loadGoldDays s symbol start w.e0).filterMap
            (fun r => r.oi_contracts)).max? with
        | none =>
          rw [hmx] at h
          simp [pure, Except.pure] at h
        | some v =>
          rw [hmx] at h
          simp [pure, Except.pure] at h
  · intro w hw hl
    simp only [buildFuturesSummary, hw, Bind.bind, Except.bind]
    rw [hl]
    simp [pure, Except.pure]
  · intro rows hlk hnone
    have hfilter : rows.filter (fun r => decide (r.symbol = symbol)) = [] := by
      rw [List.filter_eq_nil_iff]
      intro r hr
      simpa using hnone r hr
    simp [buildFuturesDay, hlk, hfilter]

/-- Witness for C10: on the fixture store with no gold partitions the
summary builder returns the empty result without touching the store, and
the day builder does the same for a symbol absent from the partition. -/
theorem C10_empty_result_skips_persist_witness :
    buildFuturesSummary "W1" S0 "ABC" ⟨2024, 4, 25⟩ = .ok ([], S0) ∧
    buildFuturesDay S0 "ZZZ" ⟨2024, 4, 5⟩ = .ok ([], S0) := by
  constructor
  · exact (C10_empty_result_skips_persist "W1" S0 "ABC" ⟨2024, 4, 25⟩ ⟨2024, 4, 5⟩).2.2.1
      W425 (by decide) (by decide)
  · exact (C10_empty_result_skips_persist "W1" S0 "ZZZ" ⟨2024, 4, 25⟩ ⟨2024, 4, 5⟩).2.2.2
      [foRow ⟨2024, 4, 5⟩ "ABC" ⟨2024, 4, 25⟩ (some 100) (some 15)] (by decide) (by decide)


/-- C9: both builders are idempotent.  A second run of
`build_futures_day` (resp. `build_futures_summary`) on the store left by
a successful first run returns the same records and leaves the store
byte-for-byte identical: the write target is replaced with equivalent
content and no stale rows accumulate. -/
theorem C9_builders_idempotent (scope : String) (s : Store) (symbol : String)
    (td expiry : Date) :
    (∀ out s1, buildFuturesDay s symbol td = .ok (out, s1) →
      buildFuturesDay s1 symbol td = .ok (out, s1)) ∧
    (∀ out s1, buildFuturesSummary scope s symbol expiry = .ok (out, s1) →
      buildFuturesSummary scope s1 symbol expiry = .ok (out, s1)) := by
  constructor
  · intro out s1 h
    have h0 := h
    simp only [buildFuturesDay] at h
    split at h
    · cases h
    · next rows heq =>
      split at h
      · simp only [Except.ok.injEq, Prod.mk.injEq] at h
        obtain ⟨h1, h2⟩ := h
        subst h1
        subst h2
        exact h0
      · next hne =>
        simp only [Except.ok.injEq, Prod.mk.injEq] at h
        obtain ⟨h1, h2⟩ := h
        have e0 : lookupParquet s1.silverFo td = some rows := by
          rw [← h2]
          exact heq
        have em : lookupParquet s1.silverMwpl td = lookupParquet s.silverMwpl td := by
          rw [← h2]
        simp only [buildFuturesDay, e0, em]
        rw [if_neg hne]
        simp only [Except.ok.injEq, Prod.mk.injEq]
        refine ⟨h1, ?_⟩
        rw [← h2]
        simp [updateAssoc_idem]
  · intro out s1 h
    have h0 := h
    simp only [buildFuturesSummary] at h
    cases hw : windowsFor s symbol expiry with
    | error e =>
      rw [hw] at h
      simp [Bind.bind, Except.bind] at h
    | ok w =>
      rw [hw] at h
      simp only [Bind.bind, Except.bind] at h
      set start := if scope = "W1" then w.w1Start else w.w3Start with hstart
      split at h
      · next hemp =>
        simp only [pure, Except.pure, Except.ok.injEq, Prod.mk.injEq] at h
        obtain ⟨h1, h2⟩ := h
        subst h1
        subst h2
        exact h0
      · next hemp =>
        cases hmx : ((loadGoldDays s symbol start w.e0).filterMap
            (fun r => r.oi_contracts)).max? with
        | none =>
          rw [hmx] at h
          simp [pure, Except.pure] at h
        | some v =>
          rw [hmx] at h
          simp only [pure, Except.pure, Except.ok.injEq, Prod.mk.injEq] at h
          obtain ⟨h1, h2⟩ := h
          have e1 : windowsFor s1 symbol expiry = windowsFor s symbol expiry := by
            rw [← h2]
            apply windowsFor_congr <;> rfl
          have e2 : loadGoldDays s1 symbol start w.e0 = loadGoldDays s symbol start w.e0 := by
            rw [← h2]
            apply loadGoldDays_congr
            rfl
          simp only [buildFuturesSummary, e1, hw, Bind.bind, Except.bind]
          rw [← hstart, e2, if_neg hemp, hmx]
          simp only [pure, Except.pure, Except.ok.injEq, Prod.mk.injEq]
          refine ⟨h1, ?_⟩
          rw [← h2]
          simp [updateAssoc_idem]

/-- Witness for C9 at the fixture stores: rebuilding the 2024-04-05 gold
day on `S0day` and the 2024-04-25 summary on `SPos1` reproduces the same
records and stores. -/
theorem C9_builders_idempotent_witness :
    buildFuturesDay S0day "ABC" ⟨2024, 4, 5⟩ = .ok (G45, S0day) ∧
    buildFuturesSummary "W1" SPos1 "ABC" ⟨2024, 4, 25⟩ = .ok ([SRowPos], SPos1) := by
  constructor
  · exact (C9_builders_idempotent "W1" S0 "ABC" ⟨2024, 4, 5⟩ ⟨2024, 4, 25⟩).1
      G45 S0day (by decide)
  · exact (C9_builders_idempotent "W1" SPos "ABC" ⟨2024, 4, 5⟩ ⟨2024, 4, 25⟩).2
      [SRowPos] SPos1 (by decide)


/-- C1 (failing-input evaluation): on the fixture chain the computed
overlap start 2024-01-26 is strictly before the primary start 2024-03-29
— the well-ordered case in which the claim requires silence — yet
`windows_for` logs the overlap-ordering warning (`overlapWarn = true`),
because the code warns when `w3_start > w1_start` is false instead of
when `w3_start < w1_start` is false.  The boundary triple is still
returned without raising. -/
theorem C1_overlap_warning_failing_input :
    windowsFor S0 "ABC" ⟨2024, 4, 25⟩ = .ok W425 ∧
    W425.w3Start < W425.w1Start ∧ W425.overlapWarn = true :=
  ⟨by decide, by decide, rfl⟩

/-- C2 (counterexample): the derived chain of `ABC` on `S0` has length 4,
yet `windows_for` at its first expiry invokes the fallback path — the
fallback log is non-empty — refuting "never invokes the fallback path for
any expiry of a chain of length ≥ 4". -/
theorem C2_fallback_counterexample :
    (deriveExpiries S0 "ABC").length = 4 ∧
    windowsFor S0 "ABC" ⟨2024, 1, 25⟩ = .ok W125 ∧
    W125.fallbackLog ≠ [] :=
  ⟨by decide, by decide, by decide⟩

/-- C2 (amended): `windows_for` invokes no fallback for an expiry exactly
when the expiry sits at index ≥ 3 of the derived chain (so that both the
`idx-1` and `idx-3` anchors exist); for expiries at index < 3 the
fallback fires and is observable through the logged warnings. -/
theorem C2_fallback_iff_index (s : Store) (symbol : String) (expiry : Date)
    (r : WindowsResult) (h : windowsFor s symbol expiry = .ok r) :
    r.fallbackLog = [] ↔ 3 ≤ (deriveExpiries s symbol).indexOf expiry := by
  obtain ⟨hmem, he0, hw1, hw3, hlog, hwarn⟩ := windowsFor_ok_elim h
  rw [hlog]
  by_cases h3 : 3 ≤ (deriveExpiries s symbol).indexOf expiry
  · have h1 : 1 ≤ (deriveExpiries s symbol).indexOf expiry := by omega
    simp [h1, h3]
  · by_cases h1 : 1 ≤ (deriveExpiries s symbol).indexOf expiry
    · simp [h1, h3]
    · simp [h1, h3]

/-- Witness for the amended C2: the last expiry of the fixture chain sits
at index 3 and its run produced an empty fallback log. -/
theorem C2_fallback_iff_index_witness :
    W425.fallbackLog = [] ∧ 3 ≤ (deriveExpiries S0 "ABC").indexOf ⟨2024, 4, 25⟩ :=
  ⟨(C2_fallback_iff_index S0 "ABC" ⟨2024, 4, 25⟩ W425 (by decide)).mpr (by decide),
    by decide⟩

/-- C4: a successful `windows_for` run returns `end = expiry`, computes
`primary_start` as the next trading day after `chain[idx-1]` when
`idx ≥ 1` and after `expiry` minus one calendar month when `idx = 0`, and
computes `overlap_start` as the next trading day after `chain[idx-3]`
when `idx ≥ 3` and after `expiry` minus three calendar months when
`idx < 3`. -/
theorem C4_window_anchors (s : Store) (symbol : String) (expiry : Date)
    (r : WindowsResult) (h : windowsFor s symbol expiry = .ok r) :
    expiry ∈ deriveExpiries s symbol ∧
    r.e0 = expiry ∧
    (1 ≤ (deriveExpiries s symbol).indexOf expiry →
      ∃ hlt : (deriveExpiries s symbol).indexOf expiry - 1 <
          (deriveExpiries s symbol).length,
        nextTradingDayAfter s ((deriveExpiries s symbol).get
          ⟨(deriveExpiries s symbol).indexOf expiry - 1, hlt⟩) = .ok r.w1Start) ∧
    ((deriveExpiries s symbol).indexOf expiry = 0 →
      nextTradingDayAfter s (expiry.subMonths 1) = .ok r.w1Start) ∧
    (3 ≤ (deriveExpiries s symbol).indexOf expiry →
      ∃ hlt : (deriveExpiries s symbol).indexOf expiry - 3 <
          (deriveExpiries s symbol).length,
        nextTradingDayAfter s ((deriveExpiries s symbol).get
          ⟨(deriveExpiries s symbol).indexOf expiry - 3, hlt⟩) = .ok r.w3Start) ∧
    ((deriveExpiries s symbol).indexOf expiry < 3 →
      nextTradingDayAfter s (expiry.subMonths 3) = .ok r.w3Start) := by
  obtain ⟨hmem, he0, hw1, hw3, hlog, hwarn⟩ := windowsFor_ok_elim h
  have hidx : (deriveExpiries s symbol).indexOf expiry <
      (deriveExpiries s symbol).length := List.indexOf_lt_length.2 hmem
  refine ⟨hmem, he0, ?_, ?_, ?_, ?_⟩
  · intro h1
    have hlt : (deriveExpiries s symbol).indexOf expiry - 1 <
        (deriveExpiries s symbol).length := by omega
    refine ⟨hlt, ?_⟩
    rw [if_pos h1, List.get?_eq_get hlt, Option.getD_some] at hw1
    exact hw1
  · intro h0
    have h1 : ¬ 1 ≤ (deriveExpiries s symbol).indexOf expiry := by omega
    rw [if_neg h1] at hw1
    exact hw1
  · intro h3
    have hlt : (deriveExpiries s symbol).indexOf expiry - 3 <
        (deriveExpiries s symbol).length := by omega
    refine ⟨hlt, ?_⟩
    rw [if_pos h3, List.get?_eq_get hlt, Option.getD_some] at hw3
    exact hw3
  · intro h3
    have h3n : ¬ 3 ≤ (deriveExpiries s symbol).indexOf expiry := by omega
    rw [if_neg h3n] at hw3
    exact hw3

set_option maxRecDepth 8192 in
/-- Witness for C4, the spec's scenario: on the chain
`[2024-01-25, 2024-02-22, 2024-03-28, 2024-04-25]` the run for
2024-04-25 yields `primary_start` equal to the next trading day after
`chain[2] = 2024-03-28` and `overlap_start` equal to the next trading
day after `chain[0] = 2024-01-25`. -/
theorem C4_window_anchors_witness :
    nextTradingDayAfter S0 ((deriveExpiries S0 "ABC").get ⟨2, by decide⟩) =
      .ok W425.w1Start ∧
    nextTradingDayAfter S0 ((deriveExpiries S0 "ABC").get ⟨0, by decide⟩) =
      .ok W425.w3Start := by
  obtain ⟨-, -, hp, -, ho, -⟩ :=
    C4_window_anchors S0 "ABC" ⟨2024, 4, 25⟩ W425 (by decide)
  obtain ⟨hlt1, h1⟩ := hp (by decide)
  obtain ⟨hlt3, h3⟩ := ho (by decide)
  exact ⟨h1, h3⟩


/-- C7: `next_trading_day_after` returns the first trading day among the
successive days after `dt` (it is a trading day, lies strictly after
`dt`, and no earlier scanned day is a trading day), within the 366-day
bound; it fails — and with the calendar-exhausted error, its only
failure mode — exactly when none of the 366 days following `dt` is a
trading day. -/
theorem C7_next_trading_day_scan (s : Store) (dt : Date) :
    (∀ t, nextTradingDayAfter s dt = .ok t →
      isTradingDay s t = true ∧ dt < t ∧
      ∃ k, 1 ≤ k ∧ k ≤ 366 ∧ t = Date.nextDay^[k] dt ∧
        ∀ j, 1 ≤ j → j < k → isTradingDay s (Date.nextDay^[j] dt) = false) ∧
    (nextTradingDayAfter s dt = .error Err.calendarExhausted ↔
      ∀ k, 1 ≤ k → k ≤ 366 → isTradingDay s (Date.nextDay^[k] dt) = false) ∧
    (∀ e, nextTradingDayAfter s dt = .error e → e = Err.calendarExhausted) := by
  refine ⟨?_, ?_, ?_⟩
  · intro t h
    unfold nextTradingDayAfter at h
    cases hs : searchTD s 366 dt with
    | none =>
      rw [hs] at h
      cases h
    | some t2 =>
      rw [hs] at h
      injection h with h2
      subst h2
      obtain ⟨k, hk1, hk2, rfl, htd, hmin⟩ := (searchTD_some_iff s 366 dt t2).mp hs
      exact ⟨htd, Date.lt_iterate_nextDay dt k hk1, k, hk1, hk2, rfl, hmin⟩
  · unfold nextTradingDayAfter
    cases hs : searchTD s 366 dt with
    | none =>
      have hall := (searchTD_none_iff s 366 dt).mp hs
      constructor
      · intro _
        exact hall
      · intro _
        rfl
    | some t2 =>
      obtain ⟨k, hk1, hk2, heq, htd, hmin⟩ := (searchTD_some_iff s 366 dt t2).mp hs
      constructor
      · intro hc
        cases hc
      · intro hall
        exfalso
        rw [heq] at htd
        rw [hall k hk1 hk2] at htd
        cases htd
  · intro e he
    unfold nextTradingDayAfter at he
    cases hs : searchTD s 366 dt with
    | none =>
      rw [hs] at he
      injection he with h2
      exact h2.symm
    | some t2 =>
      rw [hs] at he
      cases he

/-- Witness for C7: on the fixture store, scanning from 2024-03-28 lands
on 2024-03-29, which is a trading day strictly after 2024-03-28. -/
theorem C7_next_trading_day_scan_witness :
    isTradingDay S0 ⟨2024, 3, 29⟩ = true ∧ (⟨2024, 3, 28⟩ : Date) < ⟨2024, 3, 29⟩ := by
  have h := (C7_next_trading_day_scan S0 ⟨2024, 3, 28⟩).1 ⟨2024, 3, 29⟩ (by decide)
  exact ⟨h.1, h.2.1⟩

/-- C8: `derive_expiries` returns a strictly ascending (hence
duplicate-free) sequence whose members are exactly the expiry dates
observed for the instrument across the silver partitions that have a
data file, and the empty sequence when no such observation exists. -/
theorem C8_derive_expiries_sorted_observed (s : Store) (symbol : String) :
    List.Sorted (· < ·) (deriveExpiries s symbol) ∧
    (∀ e : Date, e ∈ deriveExpiries s symbol ↔
      ∃ p ∈ s.silverFo, ∃ rows, p.2 = some rows ∧
        ∃ r ∈ rows, r.symbol = symbol ∧ r.expiry_date = e) ∧
    ((∀ e : Date, ¬ ∃ p ∈ s.silverFo, ∃ rows, p.2 = some rows ∧
        ∃ r ∈ rows, r.symbol = symbol ∧ r.expiry_date = e) →
      deriveExpiries s symbol = []) := by
  refine ⟨deriveExpiries_sorted s symbol, ?_, ?_⟩
  · intro e
    rw [deriveExpiries_mem, mem_observedExpiryList]
  · intro hnone
    rw [List.eq_nil_iff_forall_not_mem]
    intro e hmem
    rw [deriveExpiries_mem, mem_observedExpiryList] at hmem
    exact hnone e hmem

/-- Witness for C8: on the fixture store the chain is strictly sorted,
2024-01-25 is a member because it is observed in the 2024-01-26
partition, and the empty store yields the empty chain. -/
theorem C8_derive_expiries_sorted_observed_witness :
    List.Sorted (· < ·) (deriveExpiries S0 "ABC") ∧
    (⟨2024, 1, 25⟩ : Date) ∈ deriveExpiries S0 "ABC" ∧
    deriveExpiries SEmpty "ABC" = [] := by
  refine ⟨(C8_derive_expiries_sorted_observed S0 "ABC").1, ?_, ?_⟩
  · refine ((C8_derive_expiries_sorted_observed S0 "ABC").2.1 ⟨2024, 1, 25⟩).mpr ?_
    refine ⟨(⟨2024, 1, 26⟩, some [foRow ⟨2024, 1, 26⟩ "ABC" ⟨2024, 1, 25⟩ (some 100) (some 15)]),
      by decide, [foRow ⟨2024, 1, 26⟩ "ABC" ⟨2024, 1, 25⟩ (some 100) (some 15)], rfl,
      foRow ⟨2024, 1, 26⟩ "ABC" ⟨2024, 1, 25⟩ (some 100) (some 15), by decide, rfl, rfl⟩
  · refine (C8_derive_expiries_sorted_observed SEmpty "ABC").2.2 ?_
    rintro e ⟨p, hp, -⟩
    simp [SEmpty] at hp


/-- C3 (counterexample): on `SNeg` the single in-window record has
`lot_size_shares = -10`, so `lot_used` is not positive, yet
`max_permitted_contracts` is populated (with `floor(100 / -10) = -10`)
instead of being absent as the claim's "when `lot_used > 0` and absent
otherwise" requires. -/
theorem C3_lot_positivity_counterexample :
    buildFuturesSummary "W1" SNeg "ABC" ⟨2024, 4, 25⟩ = .ok ([SRowNeg], SNeg1) ∧
    SRowNeg.lot_size_used = some (-10) ∧
    ¬ (0 : Int) < -10 ∧
    SRowNeg.max_permitted_contracts = some (-10) ∧
    SRowNeg.max_permitted_contracts ≠ none :=
  ⟨by decide, by decide, by decide, by decide, by decide⟩

/-- C3 (amended): whenever `build_futures_summary` completes with a
non-empty result, the candidate records are those loaded records with
both `mwpl_shares` and `lot_size_shares` non-null; the selected candidate
is one of them and carries a maximal `trade_date`, and it supplies
`mwpl_used`, `lot_used` and `as_of_trade_date`;
`max_permitted_contracts = floor(mwpl_used / lot_used)` when
`lot_used ≠ 0` (the code tests `lot_used` for truthiness, not
positivity) and is absent otherwise;
`threshold_90pct = floor(0.9 * max_permitted_contracts)` exactly when
`max_permitted_contracts` exists; and when no candidate exists,
`max_permitted_contracts`, `threshold_90pct`, `as_of_trade_date` (and the
audit fields `mwpl_shares_used`, `lot_size_used`) are all explicitly
absent. -/
theorem C3_summary_threshold_fields (scope : String) (s : Store) (symbol : String)
    (expiry : Date) (row : SummaryRow) (s2 : Store)
    (h : buildFuturesSummary scope s symbol expiry = .ok ([row], s2)) :
    ∃ w, windowsFor s symbol expiry = .ok w ∧
      (let loaded := loadGoldDays s symbol
        (if scope = "W1" then w.w1Start else w.w3Start) w.e0
       let cands := loaded.filterMap (fun r =>
         match r.mwpl_shares, r.lot_size_shares with
         | some mv, some lv => some (r.trade_date, mv, lv)
         | _, _ => none)
       (cands = [] →
         row.max_permitted_contracts = none ∧ row.threshold_90pct = none ∧
         row.as_of_trade_date = none ∧ row.mwpl_shares_used = none ∧
         row.lot_size_used = none) ∧
       (∀ c, selectLatest cands = some c →
         c ∈ cands ∧ (∀ x ∈ cands, x.1 ≤ c.1) ∧
         row.mwpl_shares_used = some c.2.1 ∧ row.lot_size_used = some c.2.2 ∧
         row.as_of_trade_date = some c.1 ∧
         row.max_permitted_contracts =
           (if c.2.2 ≠ 0 then some (Int.fdiv c.2.1 c.2.2) else none) ∧
         row.threshold_90pct =
           (if c.2.2 ≠ 0 then some (Int.fdiv (9 * Int.fdiv c.2.1 c.2.2) 10) else none)) ∧
       (cands ≠ [] → ∃ c, selectLatest cands = some c)) := by
  simp only [buildFuturesSummary] at h
  cases hw : windowsFor s symbol expiry with
  | error e =>
    rw [hw] at h
    simp [Bind.bind, Except.bind] at h
  | ok w =>
    rw [hw] at h
    simp only [Bind.bind, Except.bind] at h
    set start := if scope = "W1" then w.w1Start else w.w3Start with hstart
    refine ⟨w, rfl, ?_⟩
    intro loaded cands
    split at h
    · simp [pure, Except.pure] at h
    · next hemp =>
      cases hmx : ((loadGoldDays s symbol start w.e0).filterMap
            (fun r => r.oi_contracts)).max? with
      | none =>
        rw [hmx] at h
        simp [pure, Except.pure] at h
      | some v =>
        rw [hmx] at h
        simp only [pure, Except.pure, Except.ok.injEq, Prod.mk.injEq,
          List.cons.injEq, and_true] at h
        obtain ⟨hrow, hs2⟩ := h
        refine ⟨?_, ?_, ?_⟩
        · intro hcand
          rw [(selectLatest_eq_none_iff cands).mpr hcand] at hrow
          rw [← hrow]
          exact ⟨rfl, rfl, rfl, rfl, rfl⟩
        · intro c hc
          obtain ⟨hcmem, hcmax⟩ := selectLatest_mem_max cands c hc
          rw [hc] at hrow
          rw [← hrow]
          refine ⟨hcmem, hcmax, rfl, rfl, rfl, rfl, ?_⟩
          by_cases hz : c.2.2 ≠ 0
          · simp [hz]
          · simp [hz]
        · intro hne
          cases hsel : selectLatest cands with
          | none => exact absurd ((selectLatest_eq_none_iff cands).mp hsel) hne
          | some c => exact ⟨c, rfl⟩

/-- Witness for the amended C3: on `SPos` the produced summary row uses
the 2024-04-04 candidate (the latest), giving `mwpl_used = 1200`,
`lot_used = 10`, `as_of_trade_date = 2024-04-04`,
`max_permitted_contracts = floor(1200/10) = 120` and
`threshold_90pct = floor(0.9 * 120) = 108`. -/
theorem C3_summary_threshold_fields_witness :
    SRowPos.mwpl_shares_used = some 1200 ∧ SRowPos.lot_size_used = some 10 ∧
    SRowPos.as_of_trade_date = some ⟨2024, 4, 4⟩ ∧
    SRowPos.max_permitted_contracts = some 120 ∧
    SRowPos.threshold_90pct = some 108 := by
  obtain ⟨w, hw, hc⟩ :=
    C3_summary_threshold_fields "W1" SPos "ABC" ⟨2024, 4, 25⟩ SRowPos SPos1 (by decide)
  have hwv : w = W425 := by
    have h2 : windowsFor SPos "ABC" ⟨2024, 4, 25⟩ = .ok W425 := by decide
    rw [h2] at hw
    injection hw with hw2
    exact hw2.symm
  subst hwv
  obtain ⟨-, -, f1, f2, f3, f4, f5⟩ :=
    hc.2.1 (⟨2024, 4, 4⟩, 1200, 10) (by decide)
  exact ⟨f1, f2, f3, f4.trans (by decide), f5.trans (by decide)⟩

end Nseva
